import Mathlib

/-!
Shallow embedding of the Git-client core of curillo/escritorio:
the diff conversion pipeline (src/app/src/lib/git/diff.ts) and the
application-store reconciliation logic
(src/app/src/lib/dispatcher/app-store.ts).

Strings are modelled as lists of characters; asynchronous external
effects (git invocations, submodule lookups, image loads) are modelled
as explicit parameters; stateful methods are modelled as pure functions
from the relevant state snapshots to the resulting state.
-/

namespace Escritorio

/-- Checks whether a list of characters ends with the given character,
modelling JavaScript `text.endsWith(c)` for a single-character suffix. -/
def endsWithChar (s : List Char) (c : Char) : Bool :=
  match s.getLast? with
  | some d => d == c
  | Option.none => false

/-- Embeds `formatLineEnding` (src/app/src/lib/git/diff.ts lines 126-134):
if the text ends with a line feed it is returned unchanged, if it ends in a
carriage return a line feed is appended, otherwise a CRLF pair is appended. -/
def formatLineEnding (text : List Char) : List Char :=
  if endsWithChar text '\n' then text
  else if endsWithChar text '\r' then text ++ ['\n']
  else text ++ ['\r', '\n']

/-- Selection summary tags reported by a file selection, mirroring the
DiffSelectionType enum used throughout app-store.ts (All / None / Partial;
the third tag is called mixed here). -/
inductive DiffSelectionType
  | all
  | none
  | mixed
  deriving DecidableEq

/-- Modelled from the spec: models/diff.ts (the DiffSelection class) is not
under src. Spec section 3: selection state is either all lines included, no
lines included, or a partial mapping from line index to an included/excluded
boolean. -/
inductive DiffSelection
  | all : DiffSelection
  | none : DiffSelection
  | byLines : List (Nat × Bool) → DiffSelection
  deriving DecidableEq

/-- Modelled from the spec: the selection tag reported for each of the three
selection shapes of spec section 3. -/
def DiffSelection.getSelectionType : DiffSelection → DiffSelectionType
  | .all => .all
  | .none => .none
  | .byLines _ => .mixed

/-- Modelled from the spec: models/diff.ts is not under src. Spec section 3
invariant: on a diff refresh, stale indices of a partial selection (indices
not among the selectable lines of the newly loaded diff) must be dropped,
never left as selected-but-nonexistent. -/
def DiffSelection.withSelectableLines (sel : DiffSelection) (selectable : List Nat) :
    DiffSelection :=
  match sel with
  | .byLines m => .byLines (m.filter (fun p => selectable.contains p.1))
  | s => s

/-- Modelled from the spec: change kinds of a working-directory file
(spec section 3: new/modified/deleted/renamed/copied/conflicted);
models/status.ts is not under src. -/
inductive FileStatus
  | new
  | modified
  | deleted
  | renamed
  | copied
  | conflicted
  deriving DecidableEq

/-- One changed path in the working tree with its selection state
(spec section 3; models/status.ts is not under src). -/
structure WorkingDirectoryFileChange where
  path : String
  status : FileStatus
  selection : DiffSelection
  deriving DecidableEq

/-- Modelled from the spec: files are matched by a composite identity
(path plus change type), not by path alone (spec section 4.3);
models/status.ts, which computes the id string, is not under src. -/
def WorkingDirectoryFileChange.id (f : WorkingDirectoryFileChange) :
    String × FileStatus :=
  (f.path, f.status)

/-- Modelled from the spec: returns a copy of the file carrying the given
selection state (models/status.ts is not under src). -/
def WorkingDirectoryFileChange.withSelection (f : WorkingDirectoryFileChange)
    (sel : DiffSelection) : WorkingDirectoryFileChange :=
  { f with selection := sel }

/-- Modelled from the spec: with true the whole file is included, with false
no lines are included (previously-partial selections reset to none,
spec section 4.3); models/status.ts is not under src. -/
def WorkingDirectoryFileChange.withIncludeAll (f : WorkingDirectoryFileChange)
    (b : Bool) : WorkingDirectoryFileChange :=
  { f with selection := if b then DiffSelection.all else DiffSelection.none }

/-- Embeds `AppStore.getIncludeAllState`
(src/app/src/lib/dispatcher/app-store.ts lines 740-752): some true when every
file reports full selection, otherwise some false when every file reports no
selection, otherwise none. -/
def getIncludeAllState (files : List WorkingDirectoryFileChange) : Option Bool :=
  let allSelected := files.all
    (fun f => decide (f.selection.getSelectionType = DiffSelectionType.all))
  let noneSelected := files.all
    (fun f => decide (f.selection.getSelectionType = DiffSelectionType.none))
  if allSelected then some true
  else if noneSelected then some false
  else Option.none

/-- A concrete fully-included modified file, used as a witness input. -/
def exampleFileAll : WorkingDirectoryFileChange :=
  ⟨"a.txt", FileStatus.modified, DiffSelection.all⟩

/-- A concrete fully-excluded new file, used as a witness input. -/
def exampleFileNone : WorkingDirectoryFileChange :=
  ⟨"b.txt", FileStatus.new, DiffSelection.none⟩

/-- A local branch, reduced to the name used by the delete flow
(spec section 3; models/branch.ts is not under src). -/
structure Branch where
  name : String
  deriving DecidableEq

/-- The branch-related slice of IRepositoryState read by
AppStore._deleteBranch (app-store.ts lines 201-206 and 991-1004). -/
structure BranchesState where
  currentBranch : Option Branch
  defaultBranch : Option Branch
  deriving DecidableEq

/-- A git-facade invocation issued by the delete-branch flow; the facade
implementations live outside src so only the issued operation is recorded. -/
inductive GitOp
  | checkout (branchName : String)
  | deleteBranchOp (branchName : String)
  deriving DecidableEq

/-- Embeds the control flow of `AppStore._deleteBranch`
(src/app/src/lib/dispatcher/app-store.ts lines 991-1004): with no known
default branch the operation rejects with an error before issuing any git
operation; otherwise it first checks out the default branch and then deletes
the target branch, in that order, unconditionally. -/
def deleteBranchTrace (st : BranchesState) (branch : Branch) :
    Except String (List GitOp) :=
  match st.defaultBranch with
  | Option.none => Except.error "No default branch!"
  | some d => Except.ok [GitOp.checkout d.name, GitOp.deleteBranchOp branch.name]

/-- The effect of one issued git operation on the currently checked-out
branch name: a checkout switches to the named branch, a branch deletion
leaves the checkout unchanged. -/
def applyGitOp (cur : Option String) : GitOp → Option String
  | GitOp.checkout n => some n
  | GitOp.deleteBranchOp _ => cur

/-- Folds a trace of git operations over the current checkout. -/
def applyGitOps (ops : List GitOp) (cur : Option String) : Option String :=
  ops.foldl applyGitOp cur

/-- The checked-out branch name after running _deleteBranch: on the error
path no git operation runs, so the checkout is untouched; otherwise the
issued trace is applied. -/
def deleteBranchFinalCheckout (st : BranchesState) (branch : Branch) :
    Option String :=
  match deleteBranchTrace st branch with
  | Except.error _ => st.currentBranch.map Branch.name
  | Except.ok ops => applyGitOps ops (st.currentBranch.map Branch.name)

/-- A concrete repository branch state used in the delete-branch
counterexample: checked out on dev, default branch master. -/
def exampleBranchState : BranchesState :=
  ⟨some ⟨"dev"⟩, some ⟨"master"⟩⟩

/-- Kinds of a line of a parsed text diff (spec section 3:
context/add/delete/hunk-header). -/
inductive DiffLineType
  | context
  | add
  | delete
  | hunkHeader
  deriving DecidableEq

/-- A line of a parsed hunk, reduced to the fields the conversion code
reads: its raw text and its kind. -/
structure DiffLine where
  text : List Char
  type : DiffLineType
  deriving DecidableEq

/-- A parsed hunk: its ordered lines (the hunk-header line first, per spec
section 3 a line may be of hunk-header kind) and the offset of its first
line in the unified diff, as read by app-store.ts (unifiedDiffStart). -/
structure DiffHunk where
  lines : List DiffLine
  unifiedDiffStart : Nat
  deriving DecidableEq

/-- The raw parsed diff consumed by convertDiff: the binary marker and the
parsed hunks. -/
structure IRawDiff where
  isBinary : Bool
  hunks : List DiffHunk
  deriving DecidableEq

/-- The last path segment (characters after the last slash), modelling the
basename step of Node path.extname / path.basename for ordinary paths. -/
def lastSegment (path : List Char) : List Char :=
  (path.reverse.takeWhile (fun c => c != '/')).reverse

/-- Models Node `Path.extname` for ordinary file names: the suffix of the
last path segment from its last dot, or empty when the segment has no dot or
its only dot is the leading character. -/
def extname (path : List Char) : List Char :=
  let b := lastSegment path
  let afterDotRev := b.reverse.takeWhile (fun c => c != '.')
  if afterDotRev.length = b.length then []
  else if afterDotRev.length + 1 = b.length then []
  else '.' :: afterDotRev.reverse

/-- The fixed set of renderable image extensions
(src/app/src/lib/git/diff.ts line 18). -/
def imageFileExtensions : List (List Char) :=
  [".png".toList, ".jpg".toList, ".jpeg".toList, ".gif".toList]

/-- The character class [a-z0-9] of the submodule regex
(src/app/src/lib/git/diff.ts line 139). -/
def isLowerAlnum (c : Char) : Bool :=
  (decide ('a' ≤ c) && decide (c ≤ 'z')) || (decide ('0' ≤ c) && decide (c ≤ '9'))

/-- The literal the submodule regex expects after the sign character. -/
def subprojectCommitLit : List Char := "Subproject commit ".toList

/-- Whether the regex [+-]Subproject commit [a-z0-9]\x7b40\x7d matches at
the start of the given text: a sign character, the literal, then forty
lowercase-alphanumeric characters, with an arbitrary remainder. -/
def matchStartsSubmodule (s : List Char) : Bool :=
  match s with
  | [] => false
  | c :: rest =>
    (c == '+' || c == '-') &&
    rest.take 18 == subprojectCommitLit &&
    ((rest.drop 18).take 40).length == 40 &&
    ((rest.drop 18).take 40).all isLowerAlnum

/-- JavaScript RegExp.exec succeeds when the (unanchored) pattern matches at
some position of the text; modelled by probing every suffix. -/
def regexTestSubmodule (s : List Char) : Bool :=
  s.tails.any matchStartsSubmodule

/-- Follows the spec words for the submodule heuristic (spec sections 4.2
and 8): a line matching the anchored pattern of the form
sign, Subproject commit, exactly forty hexadecimal digits, end of line.
Stated for comparison with the code regex, which is unanchored and accepts
any lowercase alphanumerics. -/
def isHexDigit (c : Char) : Bool :=
  (decide ('a' ≤ c) && decide (c ≤ 'f')) || (decide ('0' ≤ c) && decide (c ≤ '9'))

/-- The anchored 40-hex pattern the spec describes, continued: true exactly
when the whole line is sign, the literal, and forty hex digits. -/
def specSubmoduleLinePattern (s : List Char) : Bool :=
  match s with
  | [] => false
  | c :: rest =>
    (c == '+' || c == '-') &&
    rest.take 18 == subprojectCommitLit &&
    (rest.drop 18).length == 40 &&
    (rest.drop 18).all isHexDigit

/-- Embeds `diffMatchesSubmoduleChange`
(src/app/src/lib/git/diff.ts lines 136-145): the code reads the line at
index 1 of the hunk and runs the regex over its text; when that line does
not exist the property access faults, modelled as the none result. -/
def diffMatchesSubmoduleChange (hunk : DiffHunk) : Option Bool :=
  match hunk.lines[1]? with
  | Option.none => Option.none
  | some line => some (regexTestSubmodule line.text)

/-- The result of `getSubmoduleDetails` (lib/git/submodule.ts, outside src),
passed to convertDiff as an explicit parameter. -/
structure SubmoduleDetails where
  changeType : String
  fromSha : Option String
  toSha : Option String
  deriving DecidableEq

/-- A fault of the conversion: the submodule probe read a hunk line that
does not exist. -/
inductive ConvertFault
  | missingLine
  deriving DecidableEq

/-- The converted diff returned to the store (models/diff.ts IDiff, with the
image payload abstracted away; every return path of getImageDiff in src
yields the Image kind). -/
inductive IDiff
  | binary
  | image
  | submodule (changeType : String) (fromSha toSha : Option String)
      (name : List Char) (changesComputed : Bool)
  | text (text : List Char) (hunks : List DiffHunk)
  deriving DecidableEq

/-- The display text rebuilt by convertDiff (lines 197-200): every line of
every hunk, each passed through formatLineEnding, concatenated in order. -/
def diffTextOf (hunks : List DiffHunk) : List Char :=
  (hunks.map (fun h => (h.lines.map (fun l => formatLineEnding l.text)).flatten)).flatten

/-- Embeds `convertDiff` (src/app/src/lib/git/diff.ts lines 147-207).
Binary diffs yield the Binary kind, or the Image kind for the recognized
image extensions. Otherwise, when the diff has exactly one hunk of at most
three lines, the submodule probe runs: on a match the externally supplied
submodule lookup, when present, is returned as a Submodule diff (the
per-file change list is fetched only when both shas are present); in every
remaining case the text diff with the parsed hunks is returned. -/
def convertDiff (filePath : List Char) (diff : IRawDiff)
    (submoduleLookup : Option SubmoduleDetails) : Except ConvertFault IDiff :=
  if diff.isBinary then
    if imageFileExtensions.contains (extname filePath) = false then
      Except.ok IDiff.binary
    else
      Except.ok IDiff.image
  else
    match diff.hunks with
    | [hunk] =>
      if hunk.lines.length ≤ 3 then
        match diffMatchesSubmoduleChange hunk with
        | Option.none => Except.error ConvertFault.missingLine
        | some true =>
          match submoduleLookup with
          | some r =>
            Except.ok (IDiff.submodule r.changeType r.fromSha r.toSha
              (lastSegment filePath) (r.fromSha.isSome && r.toSha.isSome))
          | Option.none => Except.ok (IDiff.text (diffTextOf diff.hunks) diff.hunks)
        | some false => Except.ok (IDiff.text (diffTextOf diff.hunks) diff.hunks)
      else Except.ok (IDiff.text (diffTextOf diff.hunks) diff.hunks)
    | _ => Except.ok (IDiff.text (diffTextOf diff.hunks) diff.hunks)

/-- The three-way outcome of the submodule probe inside convertDiff:
some true when the probe runs and the regex matches, some false when the
probe is skipped or runs without matching, none when the probe faults. -/
def submoduleCheckOutcome (diff : IRawDiff) : Option Bool :=
  match diff.hunks with
  | [hunk] =>
    if hunk.lines.length ≤ 3 then diffMatchesSubmoduleChange hunk
    else some false
  | _ => some false

/-- Modelled from the spec: diff-parser.ts is not under src. Spec section
4.2 accepts a hunk when its content lines advance the old/new counters to
exactly the counts declared by the hunk header; in particular a header
declaring zero old and zero new lines is accepted with no content lines at
all, so a parsed hunk may consist of the header line alone. -/
def specHunkCountsMatch (oldCount newCount : Nat) (content : List DiffLine) : Bool :=
  oldCount == (content.filter (fun l =>
    l.type == DiffLineType.delete || l.type == DiffLineType.context)).length &&
  newCount == (content.filter (fun l =>
    l.type == DiffLineType.add || l.type == DiffLineType.context)).length

/-- The hunk-header line of the empty hunk used in the fault counterexample. -/
def emptyHunkHeaderLine : DiffLine :=
  ⟨"@@ -0,0 +0,0 @@".toList, DiffLineType.hunkHeader⟩

/-- A parsed hunk consisting of the header line alone. -/
def emptyHunk : DiffHunk := ⟨[emptyHunkHeaderLine], 0⟩

/-- A non-binary parsed diff whose single hunk is the empty hunk. -/
def emptyHunkDiff : IRawDiff := ⟨false, [emptyHunk]⟩

/-- An added line whose text matches the code regex but not the anchored
forty-hex pattern of the spec: forty letters z after the literal. -/
def zLine : DiffLine :=
  ⟨'+' :: (subprojectCommitLit ++ List.replicate 40 'z'), DiffLineType.add⟩

/-- The header line of the two-line counterexample hunk. -/
def zHunkHeaderLine : DiffLine := ⟨"@@ -1 +1 @@".toList, DiffLineType.hunkHeader⟩

/-- A two-line hunk: header plus the z line. -/
def zHunk : DiffHunk := ⟨[zHunkHeaderLine, zLine], 0⟩

/-- A non-binary parsed diff whose single hunk is the z hunk. -/
def zDiff : IRawDiff := ⟨false, [zHunk]⟩

/-- A concrete submodule lookup result used in counterexamples and
witnesses. -/
def exampleSubmoduleDetails : SubmoduleDetails :=
  ⟨"changed", some "aaa", some "bbb"⟩

/-- A concrete binary raw diff. -/
def exampleBinaryDiff : IRawDiff := ⟨true, []⟩

/-- Models the filesByID map population of _loadStatus
(app-store.ts lines 602-603): Map.set is last-wins, so lookup returns the
last previous file carrying the requested composite id. -/
def findById (prev : List WorkingDirectoryFileChange)
    (fid : String × FileStatus) : Option WorkingDirectoryFileChange :=
  prev.reverse.find? (fun f => decide (f.id = fid))

/-- Embeds the per-file branch of the _loadStatus merge
(src/app/src/lib/dispatcher/app-store.ts lines 607-621): a fresh file whose
composite id also occurs in the previous state carries the previous
selection forward, except that with selection-clearing requested a
previously-partial selection is reset to no lines selected; a fresh file
with no previous counterpart is kept as is. -/
def mergeFile (prevFiles : List WorkingDirectoryFileChange)
    (clearPartialState : Bool) (file : WorkingDirectoryFileChange) :
    WorkingDirectoryFileChange :=
  match findById prevFiles file.id with
  | some existingFile =>
    if clearPartialState &&
        decide (existingFile.selection.getSelectionType = DiffSelectionType.mixed)
    then file.withIncludeAll false
    else file.withSelection existingFile.selection
  | Option.none => file

/-- Lexicographic comparison of character lists, used by the modelled path
comparator. -/
def leChars : List Char → List Char → Bool
  | [], _ => true
  | _ :: _, [] => false
  | c :: cs, d :: ds => if c == d then leChars cs ds else decide (c < d)

/-- Modelled from the spec: lib/compare.ts (caseInsenstiveCompare) is not
under src. Spec section 4.3: files are sorted by path with a locale-aware
case-insensitive comparison; modelled as lexicographic comparison of the
lowercased characters. -/
def caseInsensitiveLe (x y : String) : Bool :=
  leChars (x.data.map Char.toLower) (y.data.map Char.toLower)

/-- The merged file list produced by _loadStatus (lines 607-622): the fresh
files, each merged against the previous state, sorted by path. -/
def loadStatusMergedFiles (prevFiles newFiles : List WorkingDirectoryFileChange)
    (clearPartialState : Bool) : List WorkingDirectoryFileChange :=
  (newFiles.map (mergeFile prevFiles clearPartialState)).mergeSort
    (fun x y => caseInsensitiveLe x.path y.path)

/-- The ordered file list plus the derived include-all flag
(spec section 3; models/status.ts is not under src). -/
structure WorkingDirectoryStatus where
  files : List WorkingDirectoryFileChange
  includeAll : Option Bool
  deriving DecidableEq

/-- The working-directory slice of the _loadStatus update (lines 599-648):
merged files with the include-all flag recomputed from them. -/
def loadStatusMerge (prev : WorkingDirectoryStatus)
    (fresh : List WorkingDirectoryFileChange) (clearPartialState : Bool) :
    WorkingDirectoryStatus :=
  let mergedFiles := loadStatusMergedFiles prev.files fresh clearPartialState
  ⟨mergedFiles, getIncludeAllState mergedFiles⟩

/-- A previous file with a partial selection, used as a witness input. -/
def examplePartialOld : WorkingDirectoryFileChange :=
  ⟨"c.txt", FileStatus.modified, DiffSelection.byLines [(4, true), (7, false)]⟩

/-- A fresh status record with the same composite id as examplePartialOld
and the fresh default full selection. -/
def exampleFreshC : WorkingDirectoryFileChange :=
  ⟨"c.txt", FileStatus.modified, DiffSelection.all⟩

/-- A changed file of a commit as used by the history section: path and
change kind (models/status.ts FileChange is not under src). -/
structure FileChange where
  path : String
  status : FileStatus
  deriving DecidableEq

/-- Modelled from the spec: composite identity of a history file change
(path plus change type); models/status.ts is not under src. -/
def FileChange.id (f : FileChange) : String × FileStatus :=
  (f.path, f.status)

/-- The history selection: the selected commit sha and the selected file
(app-store.ts lines 184-192). -/
structure HistorySelection where
  sha : Option String
  file : Option FileChange
  deriving DecidableEq

/-- The slice of IHistoryState read and written by the diff-load resolve
step of _changeHistoryFileSelection. -/
structure HistoryState where
  selection : HistorySelection
  diff : Option IDiff
  deriving DecidableEq

/-- Embeds the resolve step of `AppStore._changeHistoryFileSelection`
(src/app/src/lib/dispatcher/app-store.ts lines 467-481): when the loaded
diff arrives, the result is committed only if the selected sha still equals
the sha observed before the load, a file is still selected, and its
composite id equals the id of the file the diff was loaded for; in every
other case the current state is returned untouched. -/
def commitHistoryDiffLoad (before after : HistoryState) (file : FileChange)
    (loaded : IDiff) : HistoryState :=
  if after.selection.sha ≠ before.selection.sha then after
  else
    match after.selection.file with
    | Option.none => after
    | some f =>
      if f.id ≠ file.id then after
      else { after with selection := ⟨after.selection.sha, some file⟩,
                        diff := some loaded }

/-- A concrete history file change used in the stale-load witness. -/
def exampleFileX : FileChange := ⟨"x.txt", FileStatus.modified⟩

/-- History state before the diff load: commit A selected. -/
def exampleHistoryBefore : HistoryState :=
  ⟨⟨some "A", some exampleFileX⟩, Option.none⟩

/-- History state when the load resolves: the selection moved to commit B. -/
def exampleHistoryAfter : HistoryState :=
  ⟨⟨some "B", some exampleFileX⟩, Option.none⟩

/-- Modelled from the spec: only addable/deletable lines carry a selected
flag (spec section 3); models/diff.ts is not under src. -/
def DiffLine.isIncludeableLine (l : DiffLine) : Bool :=
  l.type == DiffLineType.add || l.type == DiffLineType.delete

/-- Embeds the selectable-line collection of
updateChangesDiffForCurrentSelection (app-store.ts lines 688-704): for a
Text diff, the absolute index (hunk start plus offset) of every includeable
line; the empty set for every other diff kind. -/
def selectableLinesOf (diff : IDiff) : List Nat :=
  match diff with
  | IDiff.text _ hunks =>
    (hunks.map (fun h => h.lines.enum.filterMap (fun p =>
      if p.2.isIncludeableLine then some (h.unifiedDiffStart + p.1)
      else Option.none))).flatten
  | _ => []

/-- The changes slice read and written by the diff-refresh resolve step. -/
structure ChangesState where
  selectedFile : Option WorkingDirectoryFileChange
  diff : Option IDiff
  deriving DecidableEq

/-- Embeds the resolve step of
`AppStore.updateChangesDiffForCurrentSelection`
(src/app/src/lib/dispatcher/app-store.ts lines 681-716): the selection of
the file the diff was loaded for is restricted to the selectable lines of
the loaded diff, and the result is committed only when a file is still
selected and its composite id matches; otherwise the current state is
returned untouched. -/
def commitChangesDiffLoad (currentSelectedFile : WorkingDirectoryFileChange)
    (loaded : IDiff) (after : ChangesState) : ChangesState :=
  let selectableLines := selectableLinesOf loaded
  let newSelection :=
    currentSelectedFile.selection.withSelectableLines selectableLines
  let selectedFile := currentSelectedFile.withSelection newSelection
  match after.selectedFile with
  | Option.none => after
  | some f =>
    if decide (f.id = selectedFile.id)
    then { after with selectedFile := some selectedFile, diff := some loaded }
    else after

/-- The line indices mentioned by a partial selection; all and none mention
no index. -/
def selectionIndices : DiffSelection → List Nat
  | DiffSelection.byLines m => m.map Prod.fst
  | _ => []

/-- A selected working-directory file with a partial selection, used in the
diff-refresh witness. -/
def exampleCurFile : WorkingDirectoryFileChange :=
  ⟨"w.txt", FileStatus.modified, DiffSelection.byLines [(0, true), (5, true)]⟩

/-- A freshly loaded text diff with one hunk: the header line and one added
line, so the only includeable absolute index is 1. -/
def exampleLoadedHunk : DiffHunk :=
  ⟨[⟨"@@ -1 +1 @@".toList, DiffLineType.hunkHeader⟩,
    ⟨"+x".toList, DiffLineType.add⟩], 0⟩

/-- The loaded diff wrapping exampleLoadedHunk. -/
def exampleLoadedDiff : IDiff := IDiff.text [] [exampleLoadedHunk]

/-- The changes state when the load resolves: the same file still selected. -/
def exampleChangesAfter : ChangesState := ⟨some exampleCurFile, Option.none⟩

end Escritorio

namespace Escritorio

theorem endsWithChar_append_singleton (s : List Char) (c : Char) :
    endsWithChar (s ++ [c]) c = true := by
  simp [endsWithChar]

theorem formatLineEnding_length_lt (s : List Char) (h : endsWithChar s '\n' = false) :
    s.length < (formatLineEnding s).length := by
  unfold formatLineEnding
  rw [h]
  by_cases hr : endsWithChar s '\r' = true
  · simp [hr]
  · simp [hr]

theorem formatLineEnding_eq_self (s : List Char) (h : endsWithChar s '\n' = true) :
    formatLineEnding s = s := by
  unfold formatLineEnding
  rw [h]
  simp

theorem endsWithChar_formatLineEnding (s : List Char) :
    endsWithChar (formatLineEnding s) '\n' = true := by
  unfold formatLineEnding
  by_cases hn : endsWithChar s '\n' = true
  · simp [hn]
  · simp only [hn]
    by_cases hr : endsWithChar s '\r' = true
    · simp only [hr, Bool.false_eq_true, if_false, if_true]
      exact endsWithChar_append_singleton s '\n'
    · simp only [hr, Bool.false_eq_true, if_false]
      have hassoc : s ++ ['\r', '\n'] = (s ++ ['\r']) ++ ['\n'] := by simp
      rw [hassoc]
      exact endsWithChar_append_singleton (s ++ ['\r']) '\n'

end Escritorio

/-- C9: formatLineEnding returns its input unchanged exactly when the input
already ends with a line feed; it always produces text ending in a line feed;
and it is idempotent. -/
theorem Escritorio.formatLineEnding_spec (s : List Char) :
    (Escritorio.formatLineEnding s = s ↔ Escritorio.endsWithChar s '\n' = true) ∧
    Escritorio.endsWithChar (Escritorio.formatLineEnding s) '\n' = true ∧
    Escritorio.formatLineEnding (Escritorio.formatLineEnding s) =
      Escritorio.formatLineEnding s := by
  refine ⟨⟨?_, Escritorio.formatLineEnding_eq_self s⟩,
    Escritorio.endsWithChar_formatLineEnding s, ?_⟩
  · intro heq
    by_contra hn
    have hn' : Escritorio.endsWithChar s '\n' = false := by
      cases h : Escritorio.endsWithChar s '\n' with
      | true => exact absurd h hn
      | false => rfl
    have hlt := Escritorio.formatLineEnding_length_lt s hn'
    rw [heq] at hlt
    exact lt_irrefl _ hlt
  · exact Escritorio.formatLineEnding_eq_self _
      (Escritorio.endsWithChar_formatLineEnding s)

namespace Escritorio

/-- C2: getIncludeAllState is some true iff every file reports full selection,
for nonempty lists some false iff every file reports no selection, none
exactly when the list is mixed, and for the empty list it resolves to
some true. -/
theorem getIncludeAllState_spec (files : List WorkingDirectoryFileChange) :
    (getIncludeAllState files = some true ↔
      ∀ f ∈ files, f.selection.getSelectionType = DiffSelectionType.all) ∧
    (files ≠ [] →
      (getIncludeAllState files = some false ↔
        ∀ f ∈ files, f.selection.getSelectionType = DiffSelectionType.none)) ∧
    (getIncludeAllState files = Option.none ↔
      ((∃ f ∈ files, f.selection.getSelectionType ≠ DiffSelectionType.all) ∧
       (∃ f ∈ files, f.selection.getSelectionType ≠ DiffSelectionType.none))) ∧
    getIncludeAllState [] = some true := by
  have hAll : (files.all
      (fun f => decide (f.selection.getSelectionType = DiffSelectionType.all)) = true) ↔
      ∀ f ∈ files, f.selection.getSelectionType = DiffSelectionType.all := by
    simp
  have hNone : (files.all
      (fun f => decide (f.selection.getSelectionType = DiffSelectionType.none)) = true) ↔
      ∀ f ∈ files, f.selection.getSelectionType = DiffSelectionType.none := by
    simp
  by_cases hA : files.all
      (fun f => decide (f.selection.getSelectionType = DiffSelectionType.all)) = true
  · have hA' := hAll.mp hA
    refine ⟨iff_of_true (by simp [getIncludeAllState, hA]) hA', ?_, ?_, by rfl⟩
    · intro hne
      refine iff_of_false (by simp [getIncludeAllState, hA]) ?_
      intro hforall
      obtain ⟨f0, hf0⟩ := List.exists_mem_of_ne_nil files hne
      have h1 := hA' f0 hf0
      have h2 := hforall f0 hf0
      rw [h1] at h2
      exact absurd h2 (by simp)
    · refine iff_of_false (by simp [getIncludeAllState, hA]) ?_
      rintro ⟨⟨f, hf, hne⟩, -⟩
      exact hne (hA' f hf)
  · by_cases hN : files.all
        (fun f => decide (f.selection.getSelectionType = DiffSelectionType.none)) = true
    · have hN' := hNone.mp hN
      have hA2 : ¬ ∀ f ∈ files, f.selection.getSelectionType = DiffSelectionType.all :=
        fun h => hA (hAll.mpr h)
      refine ⟨iff_of_false (by simp [getIncludeAllState, hA, hN]) hA2,
        fun _ => iff_of_true (by simp [getIncludeAllState, hA, hN]) hN',
        iff_of_false (by simp [getIncludeAllState, hA, hN]) ?_, by rfl⟩
      rintro ⟨-, ⟨f, hf, hne⟩⟩
      exact hne (hN' f hf)
    · have hA2 : ¬ ∀ f ∈ files, f.selection.getSelectionType = DiffSelectionType.all :=
        fun h => hA (hAll.mpr h)
      have hN2 : ¬ ∀ f ∈ files, f.selection.getSelectionType = DiffSelectionType.none :=
        fun h => hN (hNone.mpr h)
      push_neg at hA2 hN2
      refine ⟨iff_of_false (by simp [getIncludeAllState, hA, hN]) ?_,
        fun _ => iff_of_false (by simp [getIncludeAllState, hA, hN]) ?_,
        iff_of_true (by simp [getIncludeAllState, hA, hN]) ⟨hA2, hN2⟩, by rfl⟩
      · intro h
        obtain ⟨f, hf, hne⟩ := hA2
        exact hne (h f hf)
      · intro h
        obtain ⟨f, hf, hne⟩ := hN2
        exact hne (h f hf)

/-- C2 witness: instantiating getIncludeAllState_spec on the concrete
one-element list holding a fully-excluded file. -/
theorem getIncludeAllState_spec_witness :
    (getIncludeAllState [exampleFileNone] = some false ↔
      ∀ f ∈ [exampleFileNone],
        f.selection.getSelectionType = DiffSelectionType.none) := by
  exact (getIncludeAllState_spec [exampleFileNone]).2.1 (by simp)

end Escritorio

namespace Escritorio

/-- C1 counterexample: with current branch dev and default branch master,
deleting the branch feature — which is not the currently checked-out
branch — still issues a checkout of the default branch, and the final
checkout is master, not the unchanged dev; so deleting a non-current branch
does not leave the current checkout unchanged. -/
theorem deleteBranch_nonCurrent_counterexample :
    (Branch.mk "feature") ≠ (Branch.mk "dev") ∧
    exampleBranchState.currentBranch = some (Branch.mk "dev") ∧
    deleteBranchTrace exampleBranchState (Branch.mk "feature") =
      Except.ok [GitOp.checkout "master", GitOp.deleteBranchOp "feature"] ∧
    deleteBranchFinalCheckout exampleBranchState (Branch.mk "feature") =
      some "master" ∧
    deleteBranchFinalCheckout exampleBranchState (Branch.mk "feature") ≠
      some "dev" := by
  exact ⟨by decide, rfl, rfl, rfl, by decide⟩

/-- C1 amended: whenever the repository state has a known default branch,
_deleteBranch issues exactly a checkout of the default branch followed by
the deletion of the target branch — regardless of whether the target is the
currently checked-out branch — so the checkout after the operation is always
the default branch. In particular, deleting the currently checked-out branch
first checks out the default branch and then performs the deletion. -/
theorem deleteBranch_amended (st : BranchesState) (branch : Branch) (d : Branch)
    (h : st.defaultBranch = some d) :
    deleteBranchTrace st branch =
      Except.ok [GitOp.checkout d.name, GitOp.deleteBranchOp branch.name] ∧
    deleteBranchFinalCheckout st branch = some d.name := by
  obtain ⟨cur, dflt⟩ := st
  simp only [BranchesState.defaultBranch] at h
  subst h
  exact ⟨rfl, rfl⟩

/-- C1 witness: deleteBranch_amended instantiated on the concrete dev/master
state, deleting the branch feature. -/
theorem deleteBranch_amended_witness :
    deleteBranchTrace exampleBranchState (Branch.mk "feature") =
      Except.ok [GitOp.checkout "master", GitOp.deleteBranchOp "feature"] ∧
    deleteBranchFinalCheckout exampleBranchState (Branch.mk "feature") =
      some "master" :=
  deleteBranch_amended exampleBranchState (Branch.mk "feature")
    (Branch.mk "master") rfl

/-- C8: with no known default branch, _deleteBranch rejects with an error
before issuing any git operation: the trace is an error (no checkout and no
deletion is performed) and the checked-out branch is left unchanged. -/
theorem deleteBranch_noDefault (cur : Option Branch) (branch : Branch) :
    deleteBranchTrace ⟨cur, Option.none⟩ branch =
      Except.error "No default branch!" ∧
    deleteBranchFinalCheckout ⟨cur, Option.none⟩ branch = cur.map Branch.name :=
  ⟨rfl, rfl⟩

end Escritorio

namespace Escritorio

theorem diffMatchesSubmoduleChange_eq_some_true (hunk : DiffHunk) :
    diffMatchesSubmoduleChange hunk = some true ↔
      ∃ line, hunk.lines[1]? = some line ∧ regexTestSubmodule line.text = true := by
  unfold diffMatchesSubmoduleChange
  cases hl : hunk.lines[1]? with
  | none => simp
  | some line => simp [hl]

/-- C7: on a diff whose binary marker is set, convertDiff returns the Binary
kind when the extension of the file path is outside the fixed image set, the
Image kind when it is inside it, and never a Text diff. -/
theorem convertDiff_binary_spec (filePath : List Char) (diff : IRawDiff)
    (lookup : Option SubmoduleDetails) (hb : diff.isBinary = true) :
    (extname filePath ∉ imageFileExtensions →
      convertDiff filePath diff lookup = Except.ok IDiff.binary) ∧
    (extname filePath ∈ imageFileExtensions →
      convertDiff filePath diff lookup = Except.ok IDiff.image) ∧
    ∀ txt hs, convertDiff filePath diff lookup ≠ Except.ok (IDiff.text txt hs) := by
  unfold convertDiff
  rw [hb]
  refine ⟨fun h => by simp [h], fun h => by simp [h], fun txt hs => ?_⟩
  by_cases h : extname filePath ∈ imageFileExtensions
  · simp [h]
  · simp [h]

/-- C7 witness: convertDiff_binary_spec instantiated on a binary diff for a
png path. -/
theorem convertDiff_binary_spec_witness :
    convertDiff "img.png".toList exampleBinaryDiff Option.none =
      Except.ok IDiff.image :=
  (convertDiff_binary_spec "img.png".toList exampleBinaryDiff Option.none
    rfl).2.1 (by decide)

end Escritorio

namespace Escritorio

theorem diffMatchesSubmoduleChange_eq_some (hunk : DiffHunk) (b : Bool) :
    diffMatchesSubmoduleChange hunk = some b ↔
      ∃ line, hunk.lines[1]? = some line ∧ regexTestSubmodule line.text = b := by
  unfold diffMatchesSubmoduleChange
  cases hl : hunk.lines[1]? with
  | none => simp
  | some line => simp [hl]

theorem convertDiff_nonBinary_eq (filePath : List Char) (hunks : List DiffHunk)
    (lookup : Option SubmoduleDetails) :
    convertDiff filePath ⟨false, hunks⟩ lookup =
      match submoduleCheckOutcome ⟨false, hunks⟩ with
      | Option.none => Except.error ConvertFault.missingLine
      | some true =>
        (match lookup with
         | some r => Except.ok (IDiff.submodule r.changeType r.fromSha r.toSha
             (lastSegment filePath) (r.fromSha.isSome && r.toSha.isSome))
         | Option.none => Except.ok (IDiff.text (diffTextOf hunks) hunks))
      | some false => Except.ok (IDiff.text (diffTextOf hunks) hunks) := by
  unfold convertDiff submoduleCheckOutcome
  dsimp only
  rcases hunks with _ | ⟨h1, _ | ⟨h2, t⟩⟩
  · rfl
  · by_cases hlen : h1.lines.length ≤ 3
    · simp only [if_pos hlen]
      cases hmatch : diffMatchesSubmoduleChange h1 with
      | none =>
        simp only [hmatch]
        rfl
      | some b =>
        cases b with
        | true =>
          simp only [hmatch]
          rfl
        | false =>
          simp only [hmatch]
          rfl
    · simp only [if_neg hlen]
      rfl
  · rfl

end Escritorio

namespace Escritorio

/-- C4 counterexample: a non-binary diff with a single two-line hunk whose
probed line is a plus sign, the literal, and forty letters z. The code regex
accepts it (z is in its character class) and convertDiff substitutes a
Submodule diff, yet the line does not match the anchored forty-hex pattern
stated by the claim, so the substitution does not happen exactly on anchored
forty-hex content. -/
theorem convertDiff_submodule_counterexample :
    convertDiff "sub".toList zDiff (some exampleSubmoduleDetails) =
      Except.ok (IDiff.submodule "changed" (some "aaa") (some "bbb")
        "sub".toList true) ∧
    specSubmoduleLinePattern zLine.text = false :=
  ⟨rfl, by decide⟩

/-- C4 amended: for every non-binary diff, convertDiff runs the submodule
probe exactly when the diff has a single hunk of at most three lines, and
the probe succeeds exactly when the line at index 1 of that hunk exists and
the unanchored regex — a sign, the Subproject commit literal, then forty
lowercase alphanumerics — matches somewhere in its text; only on a
successful probe with a present submodule lookup is a Submodule diff
substituted, the Text diff carrying the parsed hunks is returned whenever
the probe is skipped or fails, and the conversion faults when the probed
line is missing. -/
theorem convertDiff_submodule_amended (filePath : List Char) (diff : IRawDiff)
    (lookup : Option SubmoduleDetails) (hb : diff.isBinary = false) :
    (submoduleCheckOutcome diff = some true →
      convertDiff filePath diff lookup =
        (match lookup with
         | some r => Except.ok (IDiff.submodule r.changeType r.fromSha r.toSha
             (lastSegment filePath) (r.fromSha.isSome && r.toSha.isSome))
         | Option.none =>
             Except.ok (IDiff.text (diffTextOf diff.hunks) diff.hunks))) ∧
    (submoduleCheckOutcome diff = some false →
      convertDiff filePath diff lookup =
        Except.ok (IDiff.text (diffTextOf diff.hunks) diff.hunks)) ∧
    (submoduleCheckOutcome diff = Option.none →
      convertDiff filePath diff lookup = Except.error ConvertFault.missingLine) ∧
    (submoduleCheckOutcome diff = some true ↔
      ∃ hunk line, diff.hunks = [hunk] ∧ hunk.lines.length ≤ 3 ∧
        hunk.lines[1]? = some line ∧ regexTestSubmodule line.text = true) ∧
    (∀ t fs ts n hc, convertDiff filePath diff lookup =
        Except.ok (IDiff.submodule t fs ts n hc) →
      submoduleCheckOutcome diff = some true ∧ lookup ≠ Option.none) := by
  obtain ⟨bin, hunks⟩ := diff
  have hb' : bin = false := hb
  subst hb'
  have hkey := convertDiff_nonBinary_eq filePath hunks lookup
  refine ⟨?_, ?_, ?_, ?_, ?_⟩
  · intro h
    rw [hkey, h]
  · intro h
    rw [hkey, h]
  · intro h
    rw [hkey, h]
  · show submoduleCheckOutcome ⟨false, hunks⟩ = some true ↔ _
    unfold submoduleCheckOutcome
    dsimp only
    rcases hunks with _ | ⟨h1, _ | ⟨h2, t⟩⟩
    · simp
    · by_cases hlen : h1.lines.length ≤ 3
      · simp only [if_pos hlen]
        rw [diffMatchesSubmoduleChange_eq_some h1 true]
        constructor
        · rintro ⟨line, hline, hreg⟩
          exact ⟨h1, line, rfl, hlen, hline, hreg⟩
        · rintro ⟨hunk, line, hh, -, hline, hreg⟩
          injection hh with hh1 hh2
          subst hh1
          exact ⟨line, hline, hreg⟩
      · simp only [if_neg hlen]
        constructor
        · intro h
          exact absurd h (by simp)
        · rintro ⟨hunk, line, hh, hlen2, -, -⟩
          injection hh with hh1 hh2
          subst hh1
          exact absurd hlen2 hlen
    · simp
  · intro t fs ts n hc heq
    rw [hkey] at heq
    cases ho : submoduleCheckOutcome ⟨false, hunks⟩ with
    | none =>
      rw [ho] at heq
      exact absurd heq (by simp)
    | some b =>
      cases b with
      | false =>
        rw [ho] at heq
        exact absurd heq (by simp)
      | true =>
        rw [ho] at heq
        cases lookup with
        | none => exact absurd heq (by simp)
        | some r => exact ⟨rfl, by simp⟩

/-- C4 witness: convertDiff_submodule_amended instantiated on the concrete
z diff with no submodule lookup, where a matching probe without lookup
still yields the Text diff. -/
theorem convertDiff_submodule_amended_witness :
    convertDiff "sub".toList zDiff Option.none =
      Except.ok (IDiff.text (diffTextOf zDiff.hunks) zDiff.hunks) :=
  (convertDiff_submodule_amended "sub".toList zDiff Option.none rfl).1
    (by decide)

end Escritorio

namespace Escritorio

theorem diffMatchesSubmoduleChange_eq_none (hunk : DiffHunk) :
    diffMatchesSubmoduleChange hunk = Option.none ↔
      hunk.lines[1]? = Option.none := by
  unfold diffMatchesSubmoduleChange
  cases hl : hunk.lines[1]? with
  | none => simp
  | some line => simp [hl]

/-- C10 counterexample: the non-binary parsed diff whose single hunk is the
header line alone — a hunk the spec-described count rule accepts, since a
header declaring zero old and zero new lines is matched by zero content
lines — makes convertDiff fault: the submodule probe reads the missing line
at index 1. -/
theorem convertDiff_missingLine_counterexample :
    convertDiff "m".toList emptyHunkDiff Option.none =
      Except.error ConvertFault.missingLine ∧
    emptyHunkDiff.isBinary = false ∧
    emptyHunkDiff.hunks = [emptyHunk] ∧
    emptyHunk.lines.length = 1 ∧
    specHunkCountsMatch 0 0 [] = true :=
  ⟨rfl, rfl, rfl, rfl, by decide⟩

/-- C10 amended: convertDiff never faults on a diff in which every hunk has
at least two lines (a header line plus at least one content line); the
in-bounds guarantee for the probe at line index 1 holds under that
hypothesis, but not for the degenerate parsed hunk made of the header line
alone. -/
theorem convertDiff_total_amended (filePath : List Char) (diff : IRawDiff)
    (lookup : Option SubmoduleDetails)
    (h : ∀ hunk ∈ diff.hunks, 2 ≤ hunk.lines.length) :
    ∃ d, convertDiff filePath diff lookup = Except.ok d := by
  obtain ⟨bin, hunks⟩ := diff
  cases bin with
  | true =>
    unfold convertDiff
    dsimp only
    by_cases hm : extname filePath ∈ imageFileExtensions
    · exact ⟨IDiff.image, by simp [hm]⟩
    · exact ⟨IDiff.binary, by simp [hm]⟩
  | false =>
    rw [convertDiff_nonBinary_eq]
    cases ho : submoduleCheckOutcome ⟨false, hunks⟩ with
    | none =>
      exfalso
      unfold submoduleCheckOutcome at ho
      rcases hunks with _ | ⟨h1, _ | ⟨h2, t⟩⟩
      · exact Option.noConfusion ho
      · have ho2 : (if h1.lines.length ≤ 3 then diffMatchesSubmoduleChange h1
            else some false) = Option.none := ho
        by_cases hlen : h1.lines.length ≤ 3
        · rw [if_pos hlen] at ho2
          rw [diffMatchesSubmoduleChange_eq_none h1] at ho2
          have hmem : (2:Nat) ≤ h1.lines.length := h h1 (by simp)
          rw [List.getElem?_eq_none_iff] at ho2
          omega
        · rw [if_neg hlen] at ho2
          exact Option.noConfusion ho2
      · exact Option.noConfusion ho
    | some b =>
      cases b with
      | true =>
        cases lookup with
        | none => exact ⟨_, rfl⟩
        | some r => exact ⟨_, rfl⟩
      | false => exact ⟨_, rfl⟩

/-- C10 witness: convertDiff_total_amended instantiated on the concrete
z diff, whose single hunk has two lines. -/
theorem convertDiff_total_amended_witness :
    ∃ d, convertDiff "sub".toList zDiff Option.none = Except.ok d :=
  convertDiff_total_amended "sub".toList zDiff Option.none (by decide)

end Escritorio

namespace Escritorio

theorem mergeFile_preserves (prevFiles : List WorkingDirectoryFileChange)
    (clear : Bool) (g : WorkingDirectoryFileChange) :
    (mergeFile prevFiles clear g).path = g.path ∧
    (mergeFile prevFiles clear g).status = g.status := by
  unfold mergeFile
  cases findById prevFiles g.id with
  | none => exact ⟨rfl, rfl⟩
  | some old =>
    dsimp only
    split
    · exact ⟨rfl, rfl⟩
    · exact ⟨rfl, rfl⟩

theorem mergeFile_of_findById_none (prevFiles : List WorkingDirectoryFileChange)
    (clear : Bool) (f : WorkingDirectoryFileChange)
    (h : findById prevFiles f.id = Option.none) :
    mergeFile prevFiles clear f = f := by
  unfold mergeFile
  rw [h]

theorem mergeFile_of_findById_some (prevFiles : List WorkingDirectoryFileChange)
    (clear : Bool) (f old : WorkingDirectoryFileChange)
    (h : findById prevFiles f.id = some old) :
    mergeFile prevFiles clear f =
      (if clear &&
          decide (old.selection.getSelectionType = DiffSelectionType.mixed)
       then f.withIncludeAll false
       else f.withSelection old.selection) := by
  unfold mergeFile
  rw [h]

/-- C5: in the _loadStatus merge, every fresh file is matched against the
previous state by composite identity (path plus change type): when a
previous file with the same id exists its selection is carried forward,
except that with selection-clearing requested a previously-partial
selection resets to no lines selected; a fresh file with no previous
counterpart keeps its fresh default selection; and the merged record —
whose path and change type are those of the fresh file — appears in the
sorted merged list. -/
theorem loadStatus_selection_merge (prevFiles newFiles : List WorkingDirectoryFileChange)
    (clearPartialState : Bool) (f : WorkingDirectoryFileChange) (hf : f ∈ newFiles) :
    mergeFile prevFiles clearPartialState f ∈
      loadStatusMergedFiles prevFiles newFiles clearPartialState ∧
    (mergeFile prevFiles clearPartialState f).path = f.path ∧
    (mergeFile prevFiles clearPartialState f).status = f.status ∧
    (findById prevFiles f.id = Option.none →
      (mergeFile prevFiles clearPartialState f).selection = f.selection) ∧
    (∀ old, findById prevFiles f.id = some old →
      ((clearPartialState = true ∧
          old.selection.getSelectionType = DiffSelectionType.mixed) →
        (mergeFile prevFiles clearPartialState f).selection = DiffSelection.none) ∧
      (¬(clearPartialState = true ∧
          old.selection.getSelectionType = DiffSelectionType.mixed) →
        (mergeFile prevFiles clearPartialState f).selection = old.selection)) := by
  refine ⟨?_, (mergeFile_preserves prevFiles clearPartialState f).1,
    (mergeFile_preserves prevFiles clearPartialState f).2, ?_, ?_⟩
  · unfold loadStatusMergedFiles
    rw [(List.mergeSort_perm _ _).mem_iff]
    exact List.mem_map_of_mem _ hf
  · intro hnone
    rw [mergeFile_of_findById_none prevFiles clearPartialState f hnone]
  · intro old hsome
    rw [mergeFile_of_findById_some prevFiles clearPartialState f old hsome]
    constructor
    · rintro ⟨hc, hm⟩
      subst hc
      rw [if_pos (by simp [hm])]
      rfl
    · intro hnc
      rw [if_neg ?_]
      · rfl
      · intro hcontra
        apply hnc
        simp only [Bool.and_eq_true, decide_eq_true_eq] at hcontra
        exact hcontra

/-- C5 witness: loadStatus_selection_merge instantiated on a previous state
holding one partially-selected file and a fresh state holding a file with
the same composite id, with selection-clearing requested. -/
theorem loadStatus_selection_merge_witness :
    (mergeFile [examplePartialOld] true exampleFreshC).selection =
      DiffSelection.none ∧
    mergeFile [examplePartialOld] true exampleFreshC ∈
      loadStatusMergedFiles [examplePartialOld] [exampleFreshC] true := by
  have h := loadStatus_selection_merge [examplePartialOld] [exampleFreshC]
    true exampleFreshC (by simp)
  exact ⟨(h.2.2.2.2 examplePartialOld rfl).1 ⟨rfl, rfl⟩, h.1⟩

/-- C6: when the commit diff load started by _changeHistoryFileSelection
resolves after the history selection has moved to a different commit, or to
no file, or to a file with a different composite id than the one the diff
was loaded for, the result is discarded and the stored history state is
returned unchanged. -/
theorem historyDiffLoad_discard (before after : HistoryState) (file : FileChange)
    (loaded : IDiff)
    (h : after.selection.sha ≠ before.selection.sha ∨
         after.selection.file = Option.none ∨
         (∃ f, after.selection.file = some f ∧ f.id ≠ file.id)) :
    commitHistoryDiffLoad before after file loaded = after := by
  unfold commitHistoryDiffLoad
  rcases h with h | h | ⟨f, hfile, hne⟩
  · rw [if_pos h]
  · by_cases hsha : after.selection.sha ≠ before.selection.sha
    · rw [if_pos hsha]
    · rw [if_neg hsha, h]
  · by_cases hsha : after.selection.sha ≠ before.selection.sha
    · rw [if_pos hsha]
    · rw [if_neg hsha, hfile]
      dsimp only
      rw [if_pos hne]

/-- C6 witness: historyDiffLoad_discard instantiated on the concrete states
where the selection moved from commit A to commit B while the diff for
commit A was loading. -/
theorem historyDiffLoad_discard_witness :
    commitHistoryDiffLoad exampleHistoryBefore exampleHistoryAfter
      exampleFileX IDiff.binary = exampleHistoryAfter :=
  historyDiffLoad_discard exampleHistoryBefore exampleHistoryAfter
    exampleFileX IDiff.binary (Or.inl (by decide))

end Escritorio

namespace Escritorio

theorem withSelectableLines_indices_subset (sel : DiffSelection)
    (selectable : List Nat) :
    ∀ idx ∈ selectionIndices (sel.withSelectableLines selectable),
      idx ∈ selectable := by
  cases sel with
  | all => simp [DiffSelection.withSelectableLines, selectionIndices]
  | none => simp [DiffSelection.withSelectableLines, selectionIndices]
  | byLines m =>
    intro idx hidx
    simp only [DiffSelection.withSelectableLines, selectionIndices,
      List.mem_map, List.mem_filter] at hidx
    obtain ⟨p, ⟨hmem, hcont⟩, heq⟩ := hidx
    subst heq
    simpa using hcont

/-- C3: when the diff refresh for the currently selected working-directory
file commits its result (a file is still selected and its composite id
matches the loaded-for file), the stored selected file carries the previous
selection restricted to the selectable lines of the newly loaded diff:
every index mentioned by the updated partial selection is an includeable
line index of the new diff, so every previously selected index that is not
includeable in the new diff is absent from the updated selection. -/
theorem changesDiffRefresh_subset (cur : WorkingDirectoryFileChange)
    (loaded : IDiff) (after : ChangesState) (f : WorkingDirectoryFileChange)
    (hf : after.selectedFile = some f)
    (hid : f.id = cur.id) :
    (commitChangesDiffLoad cur loaded after).selectedFile =
      some (cur.withSelection
        (cur.selection.withSelectableLines (selectableLinesOf loaded))) ∧
    (commitChangesDiffLoad cur loaded after).diff = some loaded ∧
    (∀ idx ∈ selectionIndices
        (cur.selection.withSelectableLines (selectableLinesOf loaded)),
      idx ∈ selectableLinesOf loaded) ∧
    (∀ idx ∈ selectionIndices cur.selection,
      idx ∉ selectableLinesOf loaded →
      idx ∉ selectionIndices
        (cur.selection.withSelectableLines (selectableLinesOf loaded))) := by
  have hguard : decide (f.id = (cur.withSelection
      (cur.selection.withSelectableLines (selectableLinesOf loaded))).id) = true := by
    simp [WorkingDirectoryFileChange.withSelection,
      WorkingDirectoryFileChange.id] at hid ⊢
    exact hid
  have hcommit : commitChangesDiffLoad cur loaded after =
      { after with
          selectedFile := some (cur.withSelection
            (cur.selection.withSelectableLines (selectableLinesOf loaded))),
          diff := some loaded } := by
    unfold commitChangesDiffLoad
    rw [hf]
    dsimp only
    rw [if_pos hguard]
  refine ⟨by rw [hcommit], by rw [hcommit],
    withSelectableLines_indices_subset cur.selection (selectableLinesOf loaded),
    ?_⟩
  intro idx _ hnot hcontra
  exact hnot (withSelectableLines_indices_subset cur.selection
    (selectableLinesOf loaded) idx hcontra)

/-- C3 witness: changesDiffRefresh_subset instantiated on the concrete
partially-selected file and the freshly loaded one-hunk diff, whose only
includeable index is 1, so the stale indices 0 and 5 are dropped. -/
theorem changesDiffRefresh_subset_witness :
    (commitChangesDiffLoad exampleCurFile exampleLoadedDiff
        exampleChangesAfter).selectedFile =
      some ⟨"w.txt", FileStatus.modified, DiffSelection.byLines []⟩ ∧
    (commitChangesDiffLoad exampleCurFile exampleLoadedDiff
        exampleChangesAfter).diff = some exampleLoadedDiff := by
  have h := changesDiffRefresh_subset exampleCurFile exampleLoadedDiff
    exampleChangesAfter exampleCurFile rfl rfl
  refine ⟨?_, h.2.1⟩
  rw [h.1]
  rfl

end Escritorio
